import Mathlib

/-!
Verification of the MCPTester protocol test engine against its
natural-language specification.  The definitions below are shallow
embeddings of the JavaScript source: `parseServerCommand` and the
`MCPClient` session from `src/index.js`, and the batch runner, benchmark
statistics and negative-case matcher from the `MCPTester` class.
Machine integers are modelled as `Nat` (all quantities involved are
non-negative counters, ids and millisecond durations); JavaScript string
operations are modelled over `String`/`List Char`.
-/

namespace MCPTester

/-! ## Character constants (named to keep quote characters out of literals) -/

/-- The double-quote character. -/
def dquote : Char := Char.ofNat 34

/-- The single-quote character. -/
def squote : Char := Char.ofNat 39

/-- The backslash character. -/
def bslash : Char := Char.ofNat 92

/-- The forward-slash character. -/
def fslash : Char := Char.ofNat 47

/-- The space character. -/
def spaceCh : Char := Char.ofNat 32

/-- JavaScript `String.prototype.toLowerCase` restricted to the ASCII
range used by the source (interpreter names, error texts). -/
def jsToLower (s : String) : String := String.mk (s.data.map Char.toLower)

/-- JavaScript `String.prototype.trim`: remove leading and trailing
whitespace. -/
def jsTrim (s : String) : String :=
  String.mk (((s.data.dropWhile Char.isWhitespace).reverse.dropWhile
    Char.isWhitespace).reverse)

/-- JavaScript `String.prototype.includes`: substring containment. -/
def containsStr (haystack needle : String) : Bool :=
  decide (needle.data <:+: haystack.data)

/-! ## CommandSpec Parser (`parseServerCommand`, src/index.js lines 28-99) -/

/-- The `(executable, scriptPath, args)` triple returned by
`parseServerCommand`. -/
structure CommandSpec where
  executable : String
  scriptPath : String
  args : List String
deriving Repr, DecidableEq

/-- The fixed interpreter allow-list (src/index.js line 67). -/
def executableCommands : List String :=
  ["node", "python", "python3", "deno", "bun", "tsx", "ts-node"]

/-- Strip one layer of surrounding quotes (src/index.js lines 35-38):
`command.slice(1, -1)` when the string both starts and ends with the same
quote character.  On a one-character quote string `slice(1, -1)` is empty,
matched here by `(drop 1).dropLast`. -/
def stripOuterQuotes (l : List Char) : List Char :=
  if (l.head? = some dquote ∧ l.getLast? = some dquote) ∨
     (l.head? = some squote ∧ l.getLast? = some squote) then
    (l.drop 1).dropLast
  else l

/-- The tokenizer loop of `parseServerCommand` (src/index.js lines 45-64):
quote characters toggle `inQuotes` and are dropped, a space outside quotes
ends the current token, every other character is appended to it; a
non-empty final token is pushed at the end. -/
def tokenizeAux : List Char → Bool → List Char → List (List Char) → List (List Char)
  | [], _, current, parts =>
      if current.isEmpty then parts else parts ++ [current]
  | c :: rest, inQuotes, current, parts =>
      if c = dquote ∨ c = squote then
        tokenizeAux rest (!inQuotes) current parts
      else if c = spaceCh ∧ inQuotes = false then
        (if current.isEmpty then tokenizeAux rest inQuotes [] parts
         else tokenizeAux rest inQuotes [] (parts ++ [current]))
      else
        tokenizeAux rest inQuotes (current ++ [c]) parts

/-- The token list `parts` computed by `parseServerCommand` for an input:
trim, strip one layer of surrounding quotes, replace every backslash by a
forward slash, then tokenize (src/index.js lines 34-64). -/
def parseParts (inputPath : String) : List String :=
  let command := (stripOuterQuotes (jsTrim inputPath).data).map
    (fun c => if c = bslash then fslash else c)
  (tokenizeAux command false [] []).map (fun t => String.mk t)

/-- `parseServerCommand` (src/index.js lines 28-99).  `none` models the
thrown errors for an empty input (line 30) and for zero tokens (line 73).
If the lowercased first token is a recognized interpreter it becomes
`executable`, with `parts[1] || ''` as `scriptPath` and the remaining
tokens as `args`; otherwise the first token is `scriptPath` and
`executable` keeps its default `node`. -/
def parseServerCommand (inputPath : String) : Option CommandSpec :=
  if inputPath = "" then none
  else
    match parseParts inputPath with
    | [] => none
    | firstPart :: restParts =>
        if executableCommands.contains (jsToLower firstPart) then
          some { executable := firstPart
                 scriptPath := restParts.headD ""
                 args := restParts.drop 1 }
        else
          some { executable := "node"
                 scriptPath := firstPart
                 args := restParts }

/-! ## Negative-Case Validator matching (src/unnamed/part_002) -/

/-- Model of the JavaScript regular-expression patterns exercised by the
negative-case matcher, restricted to the fragment needed here: `lit s` is
a pattern string with no regex metacharacters, which compiles and whose
`test` is plain substring search (case-insensitive under flag `i`);
`malformed s` is a pattern string on which `new RegExp` throws (for
example an unbalanced opening parenthesis), triggering the `catch`
fallback in the source. -/
inductive JsPattern where
  | lit (s : String)
  | malformed (s : String)
deriving Repr, DecidableEq

/-- The raw pattern string handed to `new RegExp` and to the fallback
`includes` checks. -/
def JsPattern.raw : JsPattern → String
  | .lit s => s
  | .malformed s => s

/-- Whether `new RegExp(pattern)` succeeds. -/
def regexCompiles : JsPattern → Bool
  | .lit _ => true
  | .malformed _ => false

/-- `new RegExp(p).test(text)` (no flags) for a metacharacter-free
pattern: case-sensitive substring search. -/
def regexTest (p : JsPattern) (text : String) : Bool :=
  match p with
  | .lit s => containsStr text s
  | .malformed _ => false

/-- `new RegExp(p, i-flag).test(text)` for a metacharacter-free pattern:
case-insensitive substring search. -/
def regexTestCI (p : JsPattern) (text : String) : Bool :=
  match p with
  | .lit s => containsStr (jsToLower text) (jsToLower s)
  | .malformed _ => false

/-- Matching an `expected_error` pattern against the error text extracted
from an error-shaped successful response (`testNegativeCases`,
src/unnamed/part_002 lines 3606-3626).  Strict mode passes on exact
equality OR on truthy-and-contains; non-strict mode first tries the
pattern as a case-insensitive regex and on compile failure falls back to
case-insensitive containment. -/
def responseErrorMatch (strict_mode : Bool) (expected_error : JsPattern)
    (errorMessage : String) : Bool :=
  if strict_mode then
    errorMessage == expected_error.raw ||
      (!(errorMessage == "") && containsStr errorMessage expected_error.raw)
  else
    if regexCompiles expected_error then
      regexTestCI expected_error errorMessage
    else
      containsStr (jsToLower errorMessage) (jsToLower expected_error.raw)

/-- Matching an `expected_error` pattern against the message of a raised
error (`testNegativeCases`, src/unnamed/part_002 lines 3660-3679).
Strict mode requires exact equality; non-strict mode first tries the
pattern as a regex WITHOUT the `i` flag and on compile failure falls back
to case-sensitive containment. -/
def raisedErrorMatch (strict_mode : Bool) (expected_error : JsPattern)
    (errorMessage : String) : Bool :=
  if strict_mode then
    errorMessage == expected_error.raw
  else
    if regexCompiles expected_error then
      regexTest expected_error errorMessage
    else
      containsStr errorMessage expected_error.raw

/-! ## Tokenizer lemmas -/

/-- Every token produced by the tokenizer loop is non-empty, because a
token is only pushed when `current` is non-empty. -/
theorem tokenizeAux_ne_nil (cs : List Char) (inQ : Bool) (cur : List Char)
    (parts : List (List Char)) (h : ∀ t ∈ parts, t ≠ []) :
    ∀ t ∈ tokenizeAux cs inQ cur parts, t ≠ [] := by
  induction cs generalizing inQ cur parts with
  | nil =>
      intro t ht
      by_cases hcur : cur.isEmpty = true
      · rw [tokenizeAux, if_pos hcur] at ht
        exact h t ht
      · rw [tokenizeAux, if_neg hcur] at ht
        rcases List.mem_append.1 ht with hmem | hmem
        · exact h t hmem
        · rcases List.mem_singleton.1 hmem with rfl
          intro hnil
          rw [hnil] at hcur
          exact hcur rfl
  | cons c rest ih =>
      intro t ht
      by_cases hq : c = dquote ∨ c = squote
      · rw [tokenizeAux, if_pos hq] at ht
        exact ih (!inQ) cur parts h t ht
      · by_cases hsp : c = spaceCh ∧ inQ = false
        · by_cases hcur : cur.isEmpty = true
          · rw [tokenizeAux, if_neg hq, if_pos hsp, if_pos hcur] at ht
            exact ih inQ [] parts h t ht
          · rw [tokenizeAux, if_neg hq, if_pos hsp, if_neg hcur] at ht
            refine ih inQ [] (parts ++ [cur]) ?_ t ht
            intro u hu
            rcases List.mem_append.1 hu with hmem | hmem
            · exact h u hmem
            · rcases List.mem_singleton.1 hmem with rfl
              intro hnil
              rw [hnil] at hcur
              exact hcur rfl
        · rw [tokenizeAux, if_neg hq, if_neg hsp] at ht
          exact ih inQ (cur ++ [c]) parts h t ht

/-- Every token in `parseParts` is a non-empty string. -/
theorem parseParts_ne_empty (inputPath : String) :
    ∀ t ∈ parseParts inputPath, t ≠ "" := by
  intro t ht
  simp only [parseParts, List.mem_map] at ht
  obtain ⟨l, hl, rfl⟩ := ht
  have hne : l ≠ [] := tokenizeAux_ne_nil _ false [] [] (by simp) l hl
  intro hcon
  exact hne (congrArg String.data hcon)

/-! ## Claim theorems: CommandSpec Parser -/

/-- Claim C4 (code-bug evidence): the documented input format of a bare
quoted path containing a space is mishandled.  `parseServerCommand` strips
the outer quotes before tokenizing, so the embedded space splits the path
into two tokens and `scriptPath` is only the first fragment — while the
same path quoted after an interpreter token survives as one token. -/
theorem parse_quoted_space_path_splits :
    parseServerCommand "\"D:\\My Path\\script.js\"" =
      some { executable := "node", scriptPath := "D:/My",
             args := ["Path/script.js"] } ∧
    parseServerCommand "node \"D:\\My Path\\script.js\"" =
      some { executable := "node", scriptPath := "D:/My Path/script.js",
             args := [] } := by decide

/-- Claim C7 (counterexample): the parser succeeds on the input consisting
of the bare interpreter name `node`, returning an EMPTY `scriptPath`
(`parts[1] || ''`), so "every successful parse has a non-empty scriptPath"
is false. -/
theorem parse_interpreter_only_empty_scriptPath :
    parseServerCommand "node" =
      some { executable := "node", scriptPath := "", args := [] } := by decide

/-- Claim C7 (amended): for every input on which `parseServerCommand`
succeeds, the token list is non-empty with a non-empty first token; if the
lowercased first token is on the interpreter allow-list it becomes
`executable`, the second token (or the empty string when absent) becomes
`scriptPath` and the remaining tokens become `args`; otherwise the first
token is `scriptPath` (non-empty in this branch) and `executable` defaults
to `node`. -/
theorem parse_success_characterization (s : String) (spec : CommandSpec)
    (h : parseServerCommand s = some spec) :
    ∃ first rest, parseParts s = first :: rest ∧ first ≠ "" ∧
      (if executableCommands.contains (jsToLower first) then
        spec = { executable := first, scriptPath := rest.headD "",
                 args := rest.drop 1 }
      else
        spec = { executable := "node", scriptPath := first, args := rest } ∧
          spec.scriptPath ≠ "") := by
  unfold parseServerCommand at h
  by_cases hs0 : s = ""
  · rw [if_pos hs0] at h
    exact absurd h (by simp)
  · rw [if_neg hs0] at h
    cases hp : parseParts s with
    | nil =>
        rw [hp] at h
        exact absurd h (by simp)
    | cons first rest =>
        rw [hp] at h
        have hfirst : first ∈ parseParts s := by
          rw [hp]; exact List.mem_cons_self _ _
        refine ⟨first, rest, rfl, parseParts_ne_empty s first hfirst, ?_⟩
        by_cases hc : executableCommands.contains (jsToLower first) = true
        · rw [if_pos hc]
          simp only [if_pos hc] at h
          exact (Option.some.inj h).symm
        · rw [if_neg hc]
          simp only [if_neg hc] at h
          have hspec : spec =
              { executable := "node", scriptPath := first, args := rest } :=
            (Option.some.inj h).symm
          refine ⟨hspec, ?_⟩
          rw [hspec]
          exact parseParts_ne_empty s first hfirst

/-- Witness for the amended C7 theorem at a concrete input. -/
theorem parse_success_characterization_witness :
    ∃ first rest, parseParts "python x.py arg" = first :: rest ∧ first ≠ "" ∧
      (if executableCommands.contains (jsToLower first) then
        ({ executable := "python", scriptPath := "x.py",
           args := ["arg"] } : CommandSpec) =
          { executable := first, scriptPath := rest.headD "",
            args := rest.drop 1 }
      else
        ({ executable := "python", scriptPath := "x.py",
           args := ["arg"] } : CommandSpec) =
            { executable := "node", scriptPath := first, args := rest } ∧
          ({ executable := "python", scriptPath := "x.py",
             args := ["arg"] } : CommandSpec).scriptPath ≠ "") :=
  parse_success_characterization "python x.py arg"
    { executable := "python", scriptPath := "x.py", args := ["arg"] }
    (by decide)

/-! ## Claim theorems: Negative-Case Validator matching -/

/-- Claim C5 (counterexample): in strict mode, on the error-shaped-response
path, an observed text that merely CONTAINS the pattern without being equal
to it nevertheless passes. -/
theorem strict_contains_passes_cex :
    responseErrorMatch true (.lit "zero") "Error: division by zero" = true ∧
    "Error: division by zero" ≠ "zero" := by decide

/-- Claim C5 (amended): in strict mode the raised-error path passes exactly
on equality with the pattern, while the error-shaped-response path passes
on equality OR on (non-empty) substring containment of the pattern in the
observed text. -/
theorem strict_match_characterization (p : JsPattern) (msg : String) :
    (raisedErrorMatch true p msg = true ↔ msg = p.raw) ∧
    (responseErrorMatch true p msg = true ↔
      (msg = p.raw ∨ (msg ≠ "" ∧ p.raw.data <:+: msg.data))) := by
  constructor
  · simp [raisedErrorMatch]
  · simp [responseErrorMatch, containsStr]

/-- Witness for the amended C5 theorem at concrete inputs. -/
theorem strict_match_characterization_witness :
    raisedErrorMatch true (.lit "boom") "boom" = true ↔
      "boom" = (JsPattern.lit "boom").raw :=
  (strict_match_characterization (.lit "boom") "boom").1

/-- Claim C6 (counterexample): in non-strict mode the raised-error path is
NOT case-insensitive — the pattern is compiled without the `i` flag — so a
pattern differing from the observed text only in case fails there, while
the same pattern passes on the error-shaped-response path. -/
theorem raised_match_case_sensitive_cex :
    raisedErrorMatch false (.lit "ZERO") "Error: division by zero" = false ∧
    responseErrorMatch false (.lit "ZERO") "Error: division by zero" = true := by
  decide

/-- Claim C6 (amended): in non-strict mode the error-shaped-response path
matches case-insensitively both when the pattern compiles as a regex (flag
`i`) and under the containment fallback when it does not; the raised-error
path instead matches case-sensitively in both situations (regex without
the `i` flag, case-sensitive containment fallback). -/
theorem nonstrict_match_characterization (s msg : String) :
    (responseErrorMatch false (.lit s) msg = true ↔
       (jsToLower s).data <:+: (jsToLower msg).data) ∧
    (responseErrorMatch false (.malformed s) msg = true ↔
       (jsToLower s).data <:+: (jsToLower msg).data) ∧
    (raisedErrorMatch false (.lit s) msg = true ↔ s.data <:+: msg.data) ∧
    (raisedErrorMatch false (.malformed s) msg = true ↔ s.data <:+: msg.data) := by
  simp [responseErrorMatch, raisedErrorMatch, regexCompiles, regexTest,
    regexTestCI, containsStr, JsPattern.raw]

/-- Witness for the amended C6 theorem at concrete inputs. -/
theorem nonstrict_match_characterization_witness :
    raisedErrorMatch false (.lit "zero") "a zero b" = true ↔
      "zero".data <:+: "a zero b".data :=
  (nonstrict_match_characterization "zero" "a zero b").2.2.1

/-! ## Batch Runner, serial mode (`batchTestTools`, src/unnamed/part_002
lines 3192-3238) -/

/-- What `client.callTool` does for one test case: return a response or
raise an error. -/
inductive CallBehavior where
  | ok (resp : String)
  | raise (msg : String)
deriving Repr, DecidableEq

/-- One batch test case: the tool name, its arguments, and how the session
would answer the call. -/
structure BatchCase where
  tool_name : String
  arguments : String
  behavior : CallBehavior
deriving Repr, DecidableEq

/-- One per-case result record as pushed onto `testResults.results`:
`info` is the response on success and the error message on failure. -/
structure CaseResult where
  tool_name : String
  arguments : String
  success : Bool
  info : String
deriving Repr, DecidableEq

/-- The unknown-tool failure reason string from the source. -/
def unknownToolMsg (t : String) : String := "工具 " ++ t ++ " 不存在"

/-- The serial loop of `batchTestTools` (src/unnamed/part_002 lines
3193-3237).  Returns the result list together with the log of tool calls
actually issued to the session (one entry per `client.callTool`).  A case
naming an unknown tool is recorded as failed without a call; a raising
call is recorded as failed; with `stop_on_error` the loop breaks after the
first failure, leaving later cases entirely absent from the results. -/
def runSerialBatch (toolNames : List String) (stop_on_error : Bool) :
    List BatchCase → List CaseResult × List String
  | [] => ([], [])
  | c :: rest =>
      if toolNames.contains c.tool_name then
        match c.behavior with
        | .ok resp =>
            let acc := runSerialBatch toolNames stop_on_error rest
            (⟨c.tool_name, c.arguments, true, resp⟩ :: acc.1,
             c.tool_name :: acc.2)
        | .raise m =>
            if stop_on_error then
              ([⟨c.tool_name, c.arguments, false, m⟩], [c.tool_name])
            else
              let acc := runSerialBatch toolNames stop_on_error rest
              (⟨c.tool_name, c.arguments, false, m⟩ :: acc.1,
               c.tool_name :: acc.2)
      else
        if stop_on_error then
          ([⟨c.tool_name, c.arguments, false, unknownToolMsg c.tool_name⟩], [])
        else
          let acc := runSerialBatch toolNames stop_on_error rest
          (⟨c.tool_name, c.arguments, false, unknownToolMsg c.tool_name⟩ ::
            acc.1, acc.2)

/-- Claim C8: serial mode with `stopOnError = true` on the case list
`[ok, fail, ok]` (all three tools known) produces exactly the two results
`[ok, fail]`, and the call log shows the third case was never sent to the
session; the unexecuted third case is absent from the results rather than
marked skipped. -/
theorem batch_serial_stop_on_error (toolNames : List String)
    (t1 t2 t3 a1 a2 a3 r1 m2 r3 : String)
    (h1 : toolNames.contains t1 = true) (h2 : toolNames.contains t2 = true)
    (h3 : toolNames.contains t3 = true) :
    runSerialBatch toolNames true
      [⟨t1, a1, .ok r1⟩, ⟨t2, a2, .raise m2⟩, ⟨t3, a3, .ok r3⟩] =
      ([⟨t1, a1, true, r1⟩, ⟨t2, a2, false, m2⟩], [t1, t2]) := by
  have m1 : t1 ∈ toolNames := by simpa using h1
  have m2m : t2 ∈ toolNames := by simpa using h2
  simp [runSerialBatch, m1, m2m]

/-- Witness for C8 at concrete inputs. -/
theorem batch_serial_stop_on_error_witness :
    runSerialBatch ["x", "y"] true
      [⟨"x", "1", .ok "r"⟩, ⟨"y", "2", .raise "boom"⟩, ⟨"x", "3", .ok "s"⟩] =
      ([⟨"x", "1", true, "r"⟩, ⟨"y", "2", false, "boom"⟩], ["x", "y"]) :=
  batch_serial_stop_on_error ["x", "y"] "x" "y" "x" "1" "2" "3" "r" "boom" "s"
    (by decide) (by decide) (by decide)

/-! ## Benchmark Engine statistics (`benchmarkSingleTool`,
src/unnamed/part_002 lines 3421-3444)

JavaScript numeric details modelled exactly over `Nat`/`ℚ`: the samples
are integer millisecond durations; `Math.floor(sorted.length * 0.5)` is
`length * 50 / 100` (exact rational multiply then floor);
`Math.round(x)` is `⌊x + 1/2⌋`; `Math.round(Math.sqrt v)` is computed as
`(Nat.sqrt ⌊4v⌋ + 1) / 2`, which equals `⌊√v + 1/2⌋`. -/

/-- `sorted.reduce((a, b) => a + b, 0)`. -/
def listSum (l : List Nat) : Nat := l.foldl (· + ·) 0

/-- `Math.round(num / den)` for naturals: `⌊num/den + 1/2⌋`. -/
def jsRoundDiv (num den : Nat) : Nat := (2 * num + den) / (2 * den)

/-- `Math.round(Math.sqrt q)` for a non-negative rational:
`⌊√q + 1/2⌋ = (⌊√⌊4q⌋⌋ + 1) / 2`. -/
def jsRoundSqrtQ (q : ℚ) : Nat := (Nat.sqrt (Int.toNat ⌊4 * q⌋) + 1) / 2

/-- Population variance (src lines 3441-3442): mean is the unrounded
`sum / length`; variance is the mean of squared deviations. -/
def populationVarianceQ (l : List Nat) : ℚ :=
  ((l.map (fun (v : ℕ) =>
    ((v : ℚ) - (listSum l : ℚ) / (l.length : ℚ)) ^ 2)).foldl
    (· + ·) 0) / (l.length : ℚ)

/-- The statistics record assembled at src/unnamed/part_002 lines
3426-3443. -/
structure BenchStatistics where
  total_requests : Nat
  successful_requests : Nat
  failed_requests : Nat
  avg : Nat
  min : Nat
  max : Nat
  p50 : Nat
  p90 : Nat
  p95 : Nat
  p99 : Nat
  std_dev : Nat
deriving Repr, DecidableEq

/-- The statistics computation guarded by
`if (benchmarkResults.execution_times.length > 0)`: `none` models the
statistics object staying empty when every call failed. -/
def computeStatistics (iterations errorCount : Nat) (times : List Nat) :
    Option BenchStatistics :=
  if times.length > 0 then
    let sorted := List.insertionSort (· ≤ ·) times
    let sum := listSum sorted
    some { total_requests := iterations
           successful_requests := times.length
           failed_requests := errorCount
           avg := jsRoundDiv sum sorted.length
           min := sorted.getD 0 0
           max := sorted.getD (sorted.length - 1) 0
           p50 := sorted.getD (sorted.length * 50 / 100) 0
           p90 := sorted.getD (sorted.length * 90 / 100) 0
           p95 := sorted.getD (sorted.length * 95 / 100) 0
           p99 := sorted.getD (sorted.length * 99 / 100) 0
           std_dev := jsRoundSqrtQ (populationVarianceQ sorted) }
  else none

/-! ## Benchmark statistics lemmas -/

theorem listSum_eq_sum (l : List Nat) : listSum l = l.sum :=
  (List.sum_eq_foldl).symm

theorem foldl_add_eq_sum (l : List ℚ) : l.foldl (· + ·) 0 = l.sum :=
  (List.sum_eq_foldl).symm

/-- `getD` with default 0 is monotone in the index on a sorted list. -/
theorem sorted_getD_mono {l : List ℕ} (hs : l.Sorted (· ≤ ·)) {i j : ℕ}
    (hij : i ≤ j) (hj : j < l.length) : l.getD i 0 ≤ l.getD j 0 := by
  have hi : i < l.length := lt_of_le_of_lt hij hj
  rw [List.getD_eq_getElem l 0 hi, List.getD_eq_getElem l 0 hj]
  have h := List.Sorted.rel_get_of_le hs
    (a := ⟨i, hi⟩) (b := ⟨j, hj⟩) (Fin.mk_le_mk.mpr hij)
  simpa using h

/-- Population variance only depends on the multiset of samples. -/
theorem populationVarianceQ_perm {l l2 : List Nat} (h : l.Perm l2) :
    populationVarianceQ l = populationVarianceQ l2 := by
  have hsum : listSum l = listSum l2 := by
    rw [listSum_eq_sum, listSum_eq_sum, h.sum_eq]
  have hlen : l.length = l2.length := h.length_eq
  have hmap : ∀ c : ℚ,
      (l.map (fun (v : ℕ) => ((v : ℚ) - c) ^ 2)).sum =
      (l2.map (fun (v : ℕ) => ((v : ℚ) - c) ^ 2)).sum := fun c =>
    (h.map (fun v : ℕ => ((v : ℚ) - c) ^ 2)).sum_eq
  unfold populationVarianceQ
  rw [hsum, hlen, foldl_add_eq_sum, foldl_add_eq_sum, hmap]

theorem populationVarianceQ_nonneg (l : List Nat) :
    0 ≤ populationVarianceQ l := by
  unfold populationVarianceQ
  apply div_nonneg
  · rw [foldl_add_eq_sum]
    apply List.sum_nonneg
    intro x hx
    simp only [List.mem_map] at hx
    obtain ⟨v, hv, rfl⟩ := hx
    positivity
  · positivity

/-- `jsRoundDiv` computes the floor of `num/den + 1/2` over the
rationals. -/
theorem jsRoundDiv_eq_floor (num den : Nat) (h : 0 < den) :
    jsRoundDiv num den = ⌊(num : ℚ) / (den : ℚ) + 1 / 2⌋₊ := by
  have hden : (den : ℚ) ≠ 0 := Nat.cast_ne_zero.mpr h.ne'
  have hq : (num : ℚ) / (den : ℚ) + 1 / 2 =
      ((2 * num + den : ℕ) : ℚ) / ((2 * den : ℕ) : ℚ) := by
    push_cast
    field_simp
    ring
  rw [jsRoundDiv, hq, Nat.floor_div_nat, Nat.floor_natCast]

/-- `jsRoundSqrtQ q` is the integer nearest (rounding half up) to the
square root of a non-negative rational `q`: it satisfies
`(2k - 1)² ≤ 4q < (2k + 1)²`. -/
theorem jsRoundSqrtQ_spec (q : ℚ) (hq : 0 ≤ q) :
    4 * q < (2 * (jsRoundSqrtQ q : ℚ) + 1) ^ 2 ∧
    (jsRoundSqrtQ q = 0 ∨
      (2 * (jsRoundSqrtQ q : ℚ) - 1) ^ 2 ≤ 4 * q) := by
  have h4 : (0 : ℚ) ≤ 4 * q := by positivity
  have hfl : (0 : ℤ) ≤ ⌊4 * q⌋ := Int.floor_nonneg.mpr h4
  set m : ℕ := Int.toNat ⌊4 * q⌋ with hm
  have hmz : (m : ℤ) = ⌊4 * q⌋ := Int.toNat_of_nonneg hfl
  have hmle : (m : ℚ) ≤ 4 * q := by
    have := Int.floor_le (4 * q)
    rw [← hmz] at this
    exact_mod_cast this
  have hmlt : 4 * q < (m : ℚ) + 1 := by
    have := Int.lt_floor_add_one (4 * q)
    rw [← hmz] at this
    exact_mod_cast this
  set t : ℕ := Nat.sqrt m with ht
  have htle : t ^ 2 ≤ m := Nat.sqrt_le' m
  have htlt : m < (t + 1) ^ 2 := Nat.lt_succ_sqrt' m
  have hk : jsRoundSqrtQ q = (t + 1) / 2 := by
    rw [jsRoundSqrtQ, ← hm, ← ht]
  set k : ℕ := (t + 1) / 2 with hkdef
  rw [hk]
  have hk1 : 2 * k ≤ t + 1 := by omega
  have hk2 : t ≤ 2 * k := by omega
  constructor
  · have hnat : (t + 1) ^ 2 ≤ (2 * k + 1) ^ 2 :=
      Nat.pow_le_pow_left (by omega) 2
    have : 4 * q < ((2 * k + 1 : ℕ) : ℚ) ^ 2 := by
      calc 4 * q < (m : ℚ) + 1 := hmlt
        _ ≤ ((t + 1) ^ 2 : ℕ) := by exact_mod_cast htlt
        _ ≤ ((2 * k + 1 : ℕ) : ℚ) ^ 2 := by
            push_cast
            exact_mod_cast hnat
    calc 4 * q < ((2 * k + 1 : ℕ) : ℚ) ^ 2 := this
      _ = (2 * (k : ℚ) + 1) ^ 2 := by push_cast; ring
  · rcases Nat.eq_zero_or_pos k with hk0 | hkpos
    · exact Or.inl hk0
    · refine Or.inr ?_
      have h2k1 : 2 * k - 1 ≤ t := by omega
      have hnat : (2 * k - 1) ^ 2 ≤ t ^ 2 := Nat.pow_le_pow_left h2k1 2
      have hcast : ((2 * k - 1 : ℕ) : ℚ) = 2 * (k : ℚ) - 1 := by
        have : 1 ≤ 2 * k := by omega
        push_cast [Nat.cast_sub this]
        ring
      calc (2 * (k : ℚ) - 1) ^ 2 = ((2 * k - 1 : ℕ) : ℚ) ^ 2 := by
            rw [hcast]
        _ ≤ ((t ^ 2 : ℕ) : ℚ) := by exact_mod_cast hnat
        _ ≤ ((m : ℕ) : ℚ) := by exact_mod_cast htle
        _ ≤ 4 * q := hmle

/-! ## Claim theorems: Benchmark Engine -/

/-- Claim C9 (counterexample): the reported mean is NOT the arithmetic
mean of the samples — it is `Math.round`ed.  For samples `[1, 2]` the
arithmetic mean is `3/2` yet the engine reports `avg = 2`. -/
theorem benchmark_mean_not_exact_cex :
    (computeStatistics 2 0 [1, 2]).map BenchStatistics.avg = some 2 ∧
    (listSum [1, 2] : ℚ) / (([1, 2] : List Nat).length : ℚ) ≠ (2 : ℚ) := by
  constructor
  · decide
  · have h1 : listSum [1, 2] = 3 := rfl
    rw [h1]
    norm_num

/-- Claim C9 (amended): for a non-empty sample list the statistics exist
and satisfy `min ≤ p50 ≤ p90 ≤ p95 ≤ p99 ≤ max`; the reported mean is the
arithmetic mean rounded half-up to the nearest integer, and the reported
standard deviation `k` is the population standard deviation rounded
half-up, characterised by `(2k-1)² ≤ 4·variance < (2k+1)²`; with an empty
sample list (every call failed) no statistics are produced and nothing is
raised. -/
theorem benchmark_stats_characterization (iterations errorCount : Nat)
    (times : List Nat) (hne : times ≠ []) :
    computeStatistics iterations errorCount [] = none ∧
    ∃ s, computeStatistics iterations errorCount times = some s ∧
      s.min ≤ s.p50 ∧ s.p50 ≤ s.p90 ∧ s.p90 ≤ s.p95 ∧ s.p95 ≤ s.p99 ∧
      s.p99 ≤ s.max ∧
      s.avg = ⌊(listSum times : ℚ) / (times.length : ℚ) + 1 / 2⌋₊ ∧
      4 * populationVarianceQ times < (2 * (s.std_dev : ℚ) + 1) ^ 2 ∧
      (s.std_dev = 0 ∨
        (2 * (s.std_dev : ℚ) - 1) ^ 2 ≤ 4 * populationVarianceQ times) := by
  refine ⟨by simp [computeStatistics], ?_⟩
  have hlen0 : 0 < times.length := List.length_pos.mpr hne
  set l : List Nat := List.insertionSort (· ≤ ·) times with hldef
  have hperm : l.Perm times := List.perm_insertionSort _ _
  have hlen : l.length = times.length := hperm.length_eq
  have hl0 : 0 < l.length := hlen ▸ hlen0
  have hs : l.Sorted (· ≤ ·) := List.sorted_insertionSort _ _
  have h99 : l.length * 99 / 100 < l.length := by
    rw [Nat.div_lt_iff_lt_mul (by norm_num)]
    omega
  have h5090 : l.length * 50 / 100 ≤ l.length * 90 / 100 :=
    Nat.div_le_div_right (Nat.mul_le_mul_left _ (by norm_num))
  have h9095 : l.length * 90 / 100 ≤ l.length * 95 / 100 :=
    Nat.div_le_div_right (Nat.mul_le_mul_left _ (by norm_num))
  have h9599 : l.length * 95 / 100 ≤ l.length * 99 / 100 :=
    Nat.div_le_div_right (Nat.mul_le_mul_left _ (by norm_num))
  have hsum : listSum l = listSum times := by
    rw [listSum_eq_sum, listSum_eq_sum, hperm.sum_eq]
  have hvar : populationVarianceQ l = populationVarianceQ times :=
    populationVarianceQ_perm hperm
  rw [computeStatistics, if_pos hlen0]
  refine ⟨_, rfl, ?_, ?_, ?_, ?_, ?_, ?_, ?_, ?_⟩
  · exact sorted_getD_mono hs (Nat.zero_le _)
      (lt_of_le_of_lt (le_trans h5090 (le_trans h9095 h9599)) h99)
  · exact sorted_getD_mono hs h5090
      (lt_of_le_of_lt (le_trans h9095 h9599) h99)
  · exact sorted_getD_mono hs h9095 (lt_of_le_of_lt h9599 h99)
  · exact sorted_getD_mono hs h9599 h99
  · exact sorted_getD_mono hs (Nat.le_sub_one_of_lt h99)
      (Nat.sub_lt hl0 Nat.one_pos)
  · rw [hsum, hlen, jsRoundDiv_eq_floor _ _ hlen0]
  · show 4 * populationVarianceQ times <
        (2 * ((jsRoundSqrtQ (populationVarianceQ l)) : ℚ) + 1) ^ 2
    rw [hvar]
    exact (jsRoundSqrtQ_spec _ (populationVarianceQ_nonneg times)).1
  · show jsRoundSqrtQ (populationVarianceQ l) = 0 ∨
        (2 * ((jsRoundSqrtQ (populationVarianceQ l)) : ℚ) - 1) ^ 2 ≤
          4 * populationVarianceQ times
    rw [hvar]
    exact (jsRoundSqrtQ_spec _ (populationVarianceQ_nonneg times)).2

/-- Witness for the amended C9 theorem at the sample list `[1, 2]`. -/
theorem benchmark_stats_characterization_witness :
    ([1, 2] : List Nat) ≠ [] ∧
    (computeStatistics 2 0 [] = none ∧
    ∃ s, computeStatistics 2 0 [1, 2] = some s ∧
      s.min ≤ s.p50 ∧ s.p50 ≤ s.p90 ∧ s.p90 ≤ s.p95 ∧ s.p95 ≤ s.p99 ∧
      s.p99 ≤ s.max ∧
      s.avg = ⌊(listSum [1, 2] : ℚ) / ((([1, 2] : List Nat).length : ℕ) : ℚ) + 1 / 2⌋₊ ∧
      4 * populationVarianceQ [1, 2] < (2 * (s.std_dev : ℚ) + 1) ^ 2 ∧
      (s.std_dev = 0 ∨
        (2 * (s.std_dev : ℚ) - 1) ^ 2 ≤ 4 * populationVarianceQ [1, 2])) :=
  ⟨by decide, benchmark_stats_characterization 2 0 [1, 2] (by decide)⟩

/-! ## Protocol Session (`MCPClient`, src/index.js lines 102-284)

The session's correlation state is modelled explicitly: `nextId` and the
`pendingRequests` map, together with a ghost record of settled outcomes
(what each caller's promise received) and of id assignment (which id each
call was stamped with).  Callers are numbered in issue order.  Events are
the atomic event-loop turns that touch this state: a `sendRequest` whose
`stdin.write` succeeds or throws synchronously, an inbound response line
reaching `handleMessage`, a request's `setTimeout(30000)` callback
firing, and `disconnect`.  Each event carries the absolute time (ms) at
which it runs; a pending entry records the instant its timer fires. -/

/-- How a caller's promise is settled. -/
inductive Outcome where
  | result (payload : String)
  | remoteError (msg : String)
  | writeError (msg : String)
  | timeout
deriving Repr, DecidableEq

/-- One entry of the `pendingRequests` map: the request id, the index of
the issuing call, and the absolute time at which its timeout callback
fires. -/
structure PendingEntry where
  id : Nat
  caller : Nat
  expiry : Nat
deriving Repr, DecidableEq

/-- The modelled `MCPClient` state. -/
structure ClientState where
  nextId : Nat
  callCount : Nat
  pending : List PendingEntry
  settled : List (Nat × Outcome)
  assigned : List (Nat × Nat)
  processAlive : Bool
deriving Repr, DecidableEq

/-- A fresh connected `MCPClient`: `nextId = 1` (src/index.js line 108),
empty pending map. -/
def initState : ClientState :=
  { nextId := 1, callCount := 0, pending := [], settled := [],
    assigned := [], processAlive := true }

/-- The fixed per-request timeout bound, 30000 ms (src/index.js
line 216). -/
def REQUEST_TIMEOUT_MS : Nat := 30000

/-- The event alphabet of one session. -/
inductive Event where
  | send (t : Nat)
  | sendFail (t : Nat) (msg : String)
  | recv (t : Nat) (id : Nat) (err : Option String) (payload : String)
  | timer (t : Nat) (id : Nat)
  | close (t : Nat)
deriving Repr, DecidableEq

/-- `sendRequest` up to and including `pendingRequests.set(id, sink)`
(src/index.js lines 193-201): the id is stamped (`nextId++`) and the
pending entry inserted BEFORE the request bytes are written; the entry's
timer is scheduled for `t + 30000`. -/
def sendRegistered (t : Nat) (s : ClientState) : ClientState :=
  { s with
    nextId := s.nextId + 1
    callCount := s.callCount + 1
    pending := ⟨s.nextId, s.callCount, t + REQUEST_TIMEOUT_MS⟩ :: s.pending
    assigned := (s.callCount, s.nextId) :: s.assigned }

/-- The `stdin.write` step of `sendRequest` (src/index.js lines 203-208),
run on the already-registered state: on success nothing more changes; on
a synchronous throw the freshly inserted entry is deleted and the caller
rejected with the write error. -/
def sendWriteStep (writeOk : Bool) (msg : String) (id caller : Nat)
    (s : ClientState) : ClientState :=
  if writeOk then s
  else
    { s with
      pending := s.pending.filter (fun e => e.id != id)
      settled := (caller, Outcome.writeError msg) :: s.settled }

/-- The outcome `handleMessage` delivers for a response (src/index.js
lines 176-180): reject with the error message when the `error` field is
present, else resolve with the result. -/
def recvOutcome (err : Option String) (payload : String) : Outcome :=
  match err with
  | some m => .remoteError m
  | none => .result payload

/-- One event-loop turn.  `send`/`sendFail` are `sendRequest`
(src/index.js lines 191-217) with the write succeeding or throwing;
`recv` is `handleMessage` for an id-bearing message (lines 171-183): a
pending id is settled and deleted, a non-pending id is dropped without
effect; `timer` is the timeout callback (lines 211-216), which fires at
its scheduled instant and only acts when the id is still pending; `close`
is `disconnect` (lines 277-283): the process is killed and the pending
map cleared — nothing is settled. -/
def step (s : ClientState) : Event → ClientState
  | .send t => sendWriteStep true "" s.nextId s.callCount (sendRegistered t s)
  | .sendFail t msg =>
      sendWriteStep false msg s.nextId s.callCount (sendRegistered t s)
  | .recv _ id err payload =>
      match s.pending.find? (fun e => e.id == id) with
      | some e =>
          { s with
            pending := s.pending.filter (fun x => x.id != id)
            settled := (e.caller, recvOutcome err payload) :: s.settled }
      | none => s
  | .timer t id =>
      match s.pending.find? (fun e => e.id == id) with
      | some e =>
          if e.expiry = t then
            { s with
              pending := s.pending.filter (fun x => x.id != id)
              settled := (e.caller, Outcome.timeout) :: s.settled }
          else s
      | none => s
  | .close _ =>
      { s with processAlive := false, pending := [] }

/-- The state reached from a fresh client by a list of events. -/
def run (es : List Event) : ClientState := es.foldl step initState

/-! ### Session invariants -/

/-- Invariants of every reachable session state. -/
structure Inv (s : ClientState) : Prop where
  nextId_eq : s.nextId = s.callCount + 1
  assigned_eq : s.assigned =
    (List.range s.callCount).reverse.map (fun c => (c, c + 1))
  pending_id : ∀ e ∈ s.pending, e.id = e.caller + 1
  pending_lt : ∀ e ∈ s.pending, e.caller < s.callCount
  pending_nodup : (s.pending.map PendingEntry.caller).Nodup
  settled_lt : ∀ p ∈ s.settled, p.1 < s.callCount
  settled_nodup : (s.settled.map Prod.fst).Nodup
  disj : ∀ e ∈ s.pending, ∀ p ∈ s.settled, e.caller ≠ p.1

theorem inv_init : Inv initState := by
  constructor <;> simp [initState]

/-- Entries of the pending map always have ids below `nextId`, so
filtering out the current `nextId` leaves the map unchanged. -/
theorem pending_filter_ne (s : ClientState) (h : Inv s) :
    s.pending.filter (fun e => e.id != s.nextId) = s.pending := by
  apply List.filter_eq_self.mpr
  intro e he
  have h1 := h.pending_id e he
  have h2 := h.pending_lt e he
  have h3 := h.nextId_eq
  simp only [bne_iff_ne, ne_eq, decide_eq_true_eq]
  omega

theorem inv_sendRegistered (t : Nat) (s : ClientState) (h : Inv s) :
    Inv (sendRegistered t s) := by
  obtain ⟨h1, h2, h3, h4, h5, h6, h7, h8⟩ := h
  refine ⟨?_, ?_, ?_, ?_, ?_, ?_, ?_, ?_⟩ <;>
    simp only [sendRegistered]
  · omega
  · rw [h2, h1, List.range_succ]
    simp
  · intro e he
    rcases List.mem_cons.1 he with rfl | hmem
    · simpa using h1
    · exact h3 e hmem
  · intro e he
    rcases List.mem_cons.1 he with rfl | hmem
    · simp
    · exact Nat.lt_succ_of_lt (h4 e hmem)
  · rw [List.map_cons]
    refine List.nodup_cons.mpr ⟨?_, h5⟩
    simp only [List.mem_map, not_exists, not_and]
    intro e he
    have := h4 e he
    omega
  · intro p hp
    exact Nat.lt_succ_of_lt (h6 p hp)
  · exact h7
  · intro e he p hp
    rcases List.mem_cons.1 he with rfl | hmem
    · have := h6 p hp
      simp only
      omega
    · exact h8 e hmem p hp

/-- The net effect of a `sendRequest` whose write throws: id consumed,
entry inserted then deleted, caller rejected with the write error. -/
theorem step_sendFail_eq (s : ClientState) (t : Nat) (m : String)
    (h : Inv s) :
    step s (.sendFail t m) =
      { s with
        nextId := s.nextId + 1
        callCount := s.callCount + 1
        assigned := (s.callCount, s.nextId) :: s.assigned
        settled := (s.callCount, Outcome.writeError m) :: s.settled } := by
  have hfilter :
      ((⟨s.nextId, s.callCount, t + REQUEST_TIMEOUT_MS⟩ : PendingEntry) ::
        s.pending).filter (fun e => e.id != s.nextId) = s.pending := by
    rw [List.filter_cons_of_neg, pending_filter_ne s h]
    simp
  simp only [step, sendWriteStep, sendRegistered, Bool.false_eq_true,
    if_false, hfilter]

theorem inv_step_sendFail (s : ClientState) (t : Nat) (m : String)
    (h : Inv s) : Inv (step s (.sendFail t m)) := by
  rw [step_sendFail_eq s t m h]
  obtain ⟨h1, h2, h3, h4, h5, h6, h7, h8⟩ := h
  refine ⟨?_, ?_, ?_, ?_, ?_, ?_, ?_, ?_⟩ <;> simp only
  · omega
  · rw [h2, h1, List.range_succ]
    simp
  · exact h3
  · intro e he
    exact Nat.lt_succ_of_lt (h4 e he)
  · exact h5
  · intro p hp
    rcases List.mem_cons.1 hp with rfl | hmem
    · simp
    · exact Nat.lt_succ_of_lt (h6 p hmem)
  · rw [List.map_cons]
    refine List.nodup_cons.mpr ⟨?_, h7⟩
    simp only [List.mem_map, not_exists, not_and]
    intro p hp
    have := h6 p hp
    omega
  · intro e he p hp
    rcases List.mem_cons.1 hp with rfl | hmem
    · have := h4 e he
      simp only
      omega
    · exact h8 e he p hmem

/-- Settling a found pending entry (by response or by timeout) preserves
the invariants. -/
theorem inv_settle (s : ClientState) (id : Nat) (e : PendingEntry)
    (o : Outcome) (h : Inv s)
    (hfind : s.pending.find? (fun x => x.id == id) = some e) :
    Inv { s with
          pending := s.pending.filter (fun x => x.id != id)
          settled := (e.caller, o) :: s.settled } := by
  have hmem : e ∈ s.pending := List.mem_of_find?_eq_some hfind
  have hbeq := List.find?_some hfind
  have hid : e.id = id := by simpa using hbeq
  obtain ⟨h1, h2, h3, h4, h5, h6, h7, h8⟩ := h
  refine ⟨h1, h2, ?_, ?_, ?_, ?_, ?_, ?_⟩ <;> simp only
  · intro x hx
    exact h3 x (List.mem_of_mem_filter hx)
  · intro x hx
    exact h4 x (List.mem_of_mem_filter hx)
  · exact List.Nodup.sublist (List.Sublist.map _ (List.filter_sublist _)) h5
  · intro p hp
    rcases List.mem_cons.1 hp with rfl | hmem2
    · exact h4 e hmem
    · exact h6 p hmem2
  · rw [List.map_cons]
    refine List.nodup_cons.mpr ⟨?_, h7⟩
    simp only [List.mem_map, not_exists, not_and]
    intro p hp
    exact fun hcon => (h8 e hmem p hp) hcon.symm
  · intro x hx p hp
    have hxmem := List.mem_of_mem_filter hx
    have hxne := List.of_mem_filter hx
    rcases List.mem_cons.1 hp with rfl | hmem2
    · have hxid := h3 x hxmem
      have heid := h3 e hmem
      simp only [bne_iff_ne, ne_eq] at hxne
      simp only
      omega
    · exact h8 x hxmem p hmem2

/-- Every event preserves the session invariants. -/
theorem inv_step (s : ClientState) (ev : Event) (h : Inv s) :
    Inv (step s ev) := by
  cases ev with
  | send t => exact inv_sendRegistered t s h
  | sendFail t m => exact inv_step_sendFail s t m h
  | recv t id err payload =>
      cases hfind : s.pending.find? (fun x => x.id == id) with
      | some e =>
          simp only [step, hfind]
          exact inv_settle s id e _ h hfind
      | none =>
          simpa only [step, hfind] using h
  | timer t id =>
      cases hfind : s.pending.find? (fun x => x.id == id) with
      | some e =>
          by_cases hexp : e.expiry = t
          · simp only [step, hfind, if_pos hexp]
            exact inv_settle s id e _ h hfind
          · simpa only [step, hfind, if_neg hexp] using h
      | none =>
          simpa only [step, hfind] using h
  | close t =>
      obtain ⟨h1, h2, h3, h4, h5, h6, h7, h8⟩ := h
      exact ⟨h1, h2, by simp [step], by simp [step], by simp [step],
        h6, h7, by simp [step]⟩

theorem inv_foldl (es : List Event) (s : ClientState) (h : Inv s) :
    Inv (es.foldl step s) := by
  induction es generalizing s with
  | nil => exact h
  | cons e rest ih => exact ih _ (inv_step _ _ h)

/-- Every reachable session state satisfies the invariants. -/
theorem inv_run (es : List Event) : Inv (run es) :=
  inv_foldl es initState inv_init

/-- A caller that is neither pending nor settled stays unsettled across
any single event (callers are never re-created: new calls get fresh
indices). -/
theorem orphan_step (s : ClientState) (ev : Event) (c : Nat) (h : Inv s)
    (hc : c < s.callCount)
    (hp : ∀ e ∈ s.pending, e.caller ≠ c)
    (hs : ∀ p ∈ s.settled, p.1 ≠ c) :
    c < (step s ev).callCount ∧
    (∀ e ∈ (step s ev).pending, e.caller ≠ c) ∧
    (∀ p ∈ (step s ev).settled, p.1 ≠ c) := by
  cases ev with
  | send t =>
      refine ⟨Nat.lt_succ_of_lt hc, ?_, hs⟩
      intro e he
      rcases List.mem_cons.1 he with rfl | hmem
      · simp only
        omega
      · exact hp e hmem
  | sendFail t m =>
      rw [step_sendFail_eq s t m h]
      refine ⟨Nat.lt_succ_of_lt hc, hp, ?_⟩
      intro p hpmem
      rcases List.mem_cons.1 hpmem with rfl | hmem
      · simp only
        omega
      · exact hs p hmem
  | recv t id err payload =>
      cases hfind : s.pending.find? (fun x => x.id == id) with
      | some e =>
          simp only [step, hfind]
          refine ⟨hc, ?_, ?_⟩
          · intro x hx
            exact hp x (List.mem_of_mem_filter hx)
          · intro p hpmem
            rcases List.mem_cons.1 hpmem with rfl | hmem
            · exact hp e (List.mem_of_find?_eq_some hfind)
            · exact hs p hmem
      | none =>
          simp only [step, hfind]
          exact ⟨hc, hp, hs⟩
  | timer t id =>
      cases hfind : s.pending.find? (fun x => x.id == id) with
      | some e =>
          by_cases hexp : e.expiry = t
          · simp only [step, hfind, if_pos hexp]
            refine ⟨hc, ?_, ?_⟩
            · intro x hx
              exact hp x (List.mem_of_mem_filter hx)
            · intro p hpmem
              rcases List.mem_cons.1 hpmem with rfl | hmem
              · exact hp e (List.mem_of_find?_eq_some hfind)
              · exact hs p hmem
          · simp only [step, hfind, if_neg hexp]
            exact ⟨hc, hp, hs⟩
      | none =>
          simp only [step, hfind]
          exact ⟨hc, hp, hs⟩
  | close t =>
      refine ⟨hc, ?_, hs⟩
      intro e he
      simp [step] at he

/-- A caller that is neither pending nor settled is never settled by any
sequence of later events. -/
theorem orphan_foldl (fs : List Event) (s : ClientState) (c : Nat)
    (h : Inv s) (hc : c < s.callCount)
    (hp : ∀ e ∈ s.pending, e.caller ≠ c)
    (hs : ∀ p ∈ s.settled, p.1 ≠ c) :
    ∀ p ∈ (fs.foldl step s).settled, p.1 ≠ c := by
  induction fs generalizing s with
  | nil => exact hs
  | cons ev rest ih =>
      obtain ⟨h1, h2, h3⟩ := orphan_step s ev c h hc hp hs
      exact ih _ (inv_step _ _ h) h1 h2 h3

/-! ## Claim theorems: Protocol Session -/

/-- Claim C1 (counterexample): with one call pending, `disconnect`
empties the pending map but settles NOTHING — the pending caller is not
rejected with `SessionClosed` (nor with anything else); its outcome
channel is simply dropped. -/
theorem close_not_reject_cex :
    (run [Event.send 0]).pending = [⟨1, 0, 30000⟩] ∧
    (run [Event.send 0, Event.close 5]).settled = [] ∧
    (run [Event.send 0, Event.close 5]).pending = [] := by decide

/-- Claim C1 (amended): `disconnect` kills the child process and clears
the pending map WITHOUT rejecting the pending calls: the settled record
is unchanged by `close`, and a call that was pending at close time is
never settled by any sequence of later events (a late response or a
firing timer finds the map cleared and does nothing), so its outcome
channel stays unsettled forever. -/
theorem close_terminates_without_rejecting (es : List Event) (t : Nat) :
    (step (run es) (.close t)).processAlive = false ∧
    (step (run es) (.close t)).pending = [] ∧
    (step (run es) (.close t)).settled = (run es).settled ∧
    ∀ e ∈ (run es).pending, ∀ fs : List Event,
      ∀ p ∈ (fs.foldl step (step (run es) (.close t))).settled,
        p.1 ≠ e.caller := by
  have hinv := inv_run es
  refine ⟨rfl, rfl, rfl, ?_⟩
  intro e he fs
  have hinv2 : Inv (step (run es) (.close t)) := inv_step _ _ hinv
  refine orphan_foldl fs _ e.caller hinv2 ?_ ?_ ?_
  · exact hinv.pending_lt e he
  · intro x hx
    simp [step] at hx
  · intro p hp
    exact (hinv.disj e he p hp).symm

/-- Witness for the amended C1 theorem: caller 0 is pending before the
close; afterwards a fresh call (caller 1) is issued and settled, and the
theorem yields that the settled entry cannot belong to the orphaned
caller 0. -/
theorem close_terminates_without_rejecting_witness :
    (⟨1, 0, 30000⟩ : PendingEntry) ∈ (run [Event.send 0]).pending ∧
    (1, Outcome.result "late") ∈
      (([Event.send 9, Event.recv 9 2 none "late"] : List Event).foldl step
        (step (run [Event.send 0]) (Event.close 5))).settled ∧
    (1, Outcome.result "late").1 ≠
      (⟨1, 0, 30000⟩ : PendingEntry).caller := by
  refine ⟨by decide, by decide, ?_⟩
  exact (close_terminates_without_rejecting [Event.send 0] 5).2.2.2
    ⟨1, 0, 30000⟩ (by decide) [Event.send 9, Event.recv 9 2 none "late"]
    (1, Outcome.result "late") (by decide)

/-- Claim C2: request/response correlation.  In every reachable session
state: (a) the ids stamped on outbound requests, in issue order, are the
strictly increasing integers 1, 2, 3, …; (b) the pending entry of a new
request is already in the map in the state in which `stdin.write` runs;
(c) an inbound response carrying a pending id settles exactly the caller
to which that id was assigned, removes exactly that entry and leaves
every other pending entry in place; (d) an inbound response whose id is
not pending is dropped without any effect on the state. -/
theorem request_response_correlation (es : List Event) :
    ((run es).assigned.reverse.map Prod.snd =
      List.range' 1 (run es).callCount) ∧
    (∀ t, (sendRegistered t (run es)).pending.head? =
      some ⟨(run es).nextId, (run es).callCount, t + REQUEST_TIMEOUT_MS⟩) ∧
    (∀ t id err payload e,
      (run es).pending.find? (fun x => x.id == id) = some e →
        (e.caller, id) ∈ (run es).assigned ∧
        (step (run es) (.recv t id err payload)).settled =
          (e.caller, recvOutcome err payload) :: (run es).settled ∧
        e ∉ (step (run es) (.recv t id err payload)).pending ∧
        (∀ x ∈ (run es).pending, x.id ≠ id →
          x ∈ (step (run es) (.recv t id err payload)).pending)) ∧
    (∀ t id err payload,
      (run es).pending.find? (fun x => x.id == id) = none →
        step (run es) (.recv t id err payload) = run es) := by
  have h := inv_run es
  refine ⟨?_, fun t => rfl, ?_, ?_⟩
  · rw [h.assigned_eq]
    simp [List.map_reverse, List.map_map, List.range'_eq_map_range,
      Function.comp, Nat.add_comm]
  · intro t id err payload e hfind
    have hmem : e ∈ (run es).pending := List.mem_of_find?_eq_some hfind
    have hbeq := List.find?_some hfind
    have hid : e.id = id := by simpa using hbeq
    refine ⟨?_, ?_, ?_, ?_⟩
    · rw [h.assigned_eq]
      have hcaller := h.pending_lt e hmem
      have hida := h.pending_id e hmem
      simp only [List.mem_map, List.mem_reverse, List.mem_range]
      exact ⟨e.caller, hcaller, by rw [← hida, hid]⟩
    · simp only [step, hfind]
    · simp only [step, hfind]
      intro hcon
      have hfalse := List.of_mem_filter hcon
      rw [hid] at hfalse
      simp at hfalse
    · intro x hx hxid
      simp only [step, hfind]
      refine List.mem_filter.mpr ⟨hx, ?_⟩
      simpa using hxid
  · intro t id err payload hfind
    simp only [step, hfind]

/-- Witness for C2: two calls issued, a response for id 1 settles
caller 0 (not caller 1), removes only that entry and keeps the other. -/
theorem request_response_correlation_witness :
    (run [Event.send 0, Event.send 0]).pending.find? (fun x => x.id == 1) =
      some ⟨1, 0, 30000⟩ ∧
    ((0, 1) ∈ (run [Event.send 0, Event.send 0]).assigned ∧
      (step (run [Event.send 0, Event.send 0])
          (Event.recv 7 1 none "reply")).settled =
        (0, recvOutcome none "reply") ::
          (run [Event.send 0, Event.send 0]).settled ∧
      (⟨1, 0, 30000⟩ : PendingEntry) ∉
        (step (run [Event.send 0, Event.send 0])
          (Event.recv 7 1 none "reply")).pending ∧
      (∀ x ∈ (run [Event.send 0, Event.send 0]).pending, x.id ≠ 1 →
        x ∈ (step (run [Event.send 0, Event.send 0])
          (Event.recv 7 1 none "reply")).pending)) := by
  refine ⟨by decide, ?_⟩
  exact (request_response_correlation [Event.send 0, Event.send 0]).2.2.1
    7 1 none "reply" ⟨1, 0, 30000⟩ (by decide)

/-- Claim C3: a request that never receives a reply.  From any reachable
state, a request issued at time `t` is stamped with id `nextId` for
caller `callCount` and its timer is scheduled at the fixed bound
`t + 30000 ms`; when that timer fires with no response having arrived,
the caller is rejected with `Timeout` and the pending map returns exactly
to its pre-call value (no leak); a late response for the expired id is a
no-op; and the timer settles nothing at any instant other than the
scheduled `t + 30000`. -/
theorem timeout_rejects_and_restores (es : List Event) (t : Nat) :
    REQUEST_TIMEOUT_MS = 30000 ∧
    (step (step (run es) (.send t))
        (.timer (t + REQUEST_TIMEOUT_MS) (run es).nextId)).settled =
      ((run es).callCount, Outcome.timeout) :: (run es).settled ∧
    (step (step (run es) (.send t))
        (.timer (t + REQUEST_TIMEOUT_MS) (run es).nextId)).pending =
      (run es).pending ∧
    (∀ t2 err payload,
      step (step (step (run es) (.send t))
          (.timer (t + REQUEST_TIMEOUT_MS) (run es).nextId))
        (.recv t2 (run es).nextId err payload) =
      step (step (run es) (.send t))
        (.timer (t + REQUEST_TIMEOUT_MS) (run es).nextId)) ∧
    (∀ t2, t2 ≠ t + REQUEST_TIMEOUT_MS →
      step (step (run es) (.send t)) (.timer t2 (run es).nextId) =
        step (run es) (.send t)) := by
  have h := inv_run es
  have hsend : step (run es) (.send t) = sendRegistered t (run es) := rfl
  have hfind : (sendRegistered t (run es)).pending.find?
      (fun x => x.id == (run es).nextId) =
      some ⟨(run es).nextId, (run es).callCount, t + REQUEST_TIMEOUT_MS⟩ := by
    show (((⟨(run es).nextId, (run es).callCount,
        t + REQUEST_TIMEOUT_MS⟩ : PendingEntry) ::
        (run es).pending).find? (fun x => x.id == (run es).nextId)) = _
    rw [List.find?_cons_of_pos]
    simp
  have hfilter : (sendRegistered t (run es)).pending.filter
      (fun x => x.id != (run es).nextId) = (run es).pending := by
    show (((⟨(run es).nextId, (run es).callCount,
        t + REQUEST_TIMEOUT_MS⟩ : PendingEntry) ::
        (run es).pending).filter (fun x => x.id != (run es).nextId)) = _
    rw [List.filter_cons_of_neg, pending_filter_ne (run es) h]
    simp
  have hnone : (run es).pending.find?
      (fun x => x.id == (run es).nextId) = none := by
    rw [List.find?_eq_none]
    intro x hx
    have h1 := h.pending_id x hx
    have h2 := h.pending_lt x hx
    have h3 := h.nextId_eq
    simp only [beq_iff_eq]
    omega
  have hS2 : step (step (run es) (.send t))
      (.timer (t + REQUEST_TIMEOUT_MS) (run es).nextId) =
      { run es with
        nextId := (run es).nextId + 1
        callCount := (run es).callCount + 1
        pending := (run es).pending
        assigned := ((run es).callCount, (run es).nextId) ::
          (run es).assigned
        settled := ((run es).callCount, Outcome.timeout) ::
          (run es).settled } := by
    rw [hsend]
    simp only [step, hfind, if_true]
    rw [hfilter]
    rfl
  refine ⟨rfl, ?_, ?_, ?_, ?_⟩
  · rw [hS2]
  · rw [hS2]
  · intro t2 err payload
    rw [hS2]
    simp only [step, hnone]
  · intro t2 ht2
    rw [hsend]
    simp only [step, hfind]
    rw [if_neg]
    exact fun hcon => ht2 hcon.symm

/-- Witness for C3 on a fresh session: the single unanswered call times
out at 30000 ms, settles caller 0 with `Timeout` and leaves the pending
map empty again. -/
theorem timeout_rejects_and_restores_witness :
    REQUEST_TIMEOUT_MS = 30000 ∧
    (step (step (run []) (Event.send 0))
        (Event.timer (0 + REQUEST_TIMEOUT_MS) (run []).nextId)).settled =
      ((run []).callCount, Outcome.timeout) :: (run []).settled ∧
    (step (step (run []) (Event.send 0))
        (Event.timer (0 + REQUEST_TIMEOUT_MS) (run []).nextId)).pending =
      (run []).pending :=
  ⟨(timeout_rejects_and_restores [] 0).1,
   (timeout_rejects_and_restores [] 0).2.1,
   (timeout_rejects_and_restores [] 0).2.2.1⟩

/-- Claim C10: at-most-once settlement.  In every reachable state each
caller has been settled at most once (the settled caller indices are
duplicate-free), settled callers are disjoint from pending ones, and once
an id is absent from the pending map — as it is after a response, a
timeout expiry or a write failure settled it — a further response or
timer firing carrying that id leaves the state completely unchanged. -/
theorem settle_at_most_once (es : List Event) :
    ((run es).settled.map Prod.fst).Nodup ∧
    (∀ e ∈ (run es).pending, ∀ p ∈ (run es).settled, e.caller ≠ p.1) ∧
    (∀ id, (∀ e ∈ (run es).pending, e.id ≠ id) →
      (∀ t err payload, step (run es) (.recv t id err payload) = run es) ∧
      (∀ t, step (run es) (.timer t id) = run es)) := by
  have h := inv_run es
  refine ⟨h.settled_nodup, h.disj, ?_⟩
  intro id hid
  have hnone : (run es).pending.find? (fun x => x.id == id) = none := by
    rw [List.find?_eq_none]
    intro x hx
    simpa using hid x hx
  exact ⟨fun t err payload => by simp only [step, hnone],
         fun t => by simp only [step, hnone]⟩

/-- Witness for C10: after a call is settled by its response, a duplicate
response and a late timer for the same id are both no-ops. -/
theorem settle_at_most_once_witness :
    ((run [Event.send 0, Event.recv 1 1 none "x"]).settled.map
      Prod.fst).Nodup ∧
    step (run [Event.send 0, Event.recv 1 1 none "x"])
        (Event.recv 2 1 none "y") =
      run [Event.send 0, Event.recv 1 1 none "x"] ∧
    step (run [Event.send 0, Event.recv 1 1 none "x"])
        (Event.timer 30000 1) =
      run [Event.send 0, Event.recv 1 1 none "x"] := by
  refine ⟨(settle_at_most_once [Event.send 0, Event.recv 1 1 none "x"]).1,
    ?_, ?_⟩
  · exact ((settle_at_most_once [Event.send 0, Event.recv 1 1 none "x"]).2.2
      1 (by decide)).1 2 none "y"
  · exact ((settle_at_most_once [Event.send 0, Event.recv 1 1 none "x"]).2.2
      1 (by decide)).2 30000

end MCPTester
